import Mathlib

/-
Verification development for the file-scanner core of the repository
(src/main.py, Part 1 "File Scanner"; src/base.py contains the same scanner
except that its process_file_batch does not maintain the flat all_files
list).  The scanner is embedded shallowly: the filesystem a scan observes
is a value of an inductive type recording, for every directory, the
sequence of entries os.scandir yields (or the fact that enumeration
raised), and, for every file, the outcome of os.stat and the outcome of
opening/reading/hashing it.  Python's mutable file_info dictionaries --
which are shared between the tree, the flat all_files list and the
file_hashes duplicate index, and are mutated in place when a duplicate is
found -- are modelled with an explicit heap keyed by the unique node id,
so the aliasing of the source is preserved exactly.
-/

namespace FileAnalyzer

/-- Metadata delivered by a successful os.stat call: st_size in bytes,
st_ctime and st_mtime as integer UNIX seconds. -/
structure StatInfo where
  size : Nat
  st_ctime : Int
  st_mtime : Int
deriving DecidableEq, Repr

/-- One regular file as the operating system presents it to the scanner:
its base name, the outcome of os.stat on it (none when stat raises
PermissionError or another OSError, main.py lines 123-128), and the
outcome of opening, reading and MD5-hashing its content in
get_file_hashes (none when that raises, main.py lines 139-144; otherwise
the hex digest string the hashing produced). -/
structure FileFS where
  name : String
  statInfo : Option StatInfo
  hashOutcome : Option String
deriving DecidableEq, Repr

/-- What one os.scandir enumeration of a directory yields, entry by entry.
done: iteration finished normally.  fail: os.scandir (or the iteration
itself) raised here, which the try/except of add_nodes catches (main.py
lines 71-74).  consDir carries the sub-listing of the subdirectory,
consFile one regular file, consOther an entry that is neither a directory
nor a regular file under follow_symlinks=False (skipped by the source). -/
inductive FSListing : Type where
  | done : FSListing
  | fail : FSListing
  | consFile (f : FileFS) (rest : FSListing) : FSListing
  | consDir (name : String) (sub : FSListing) (rest : FSListing) : FSListing
  | consOther (rest : FSListing) : FSListing
deriving Repr

/-- The file_info dictionary built by get_file_info (main.py lines
105-120), field for field.  Timestamps are kept as the integer seconds
they were derived from; the source stores isoformat renderings of the
same instants, an injective encoding. -/
structure FileInfo where
  name : String
  path : String
  size : Nat
  creation_date : Int
  last_modified : Int
  extension : String
  hash : Option String
  type : String
  id : Nat
  is_duplicate : Bool
  is_old : Bool
  is_large : Bool
  is_empty : Bool
deriving DecidableEq, Repr

/-- A node of the tree get_file_tree assembles.  A directory node carries
name, path, id and children (main.py lines 32-38 and 51-57); a file node
is one of the shared file_info dictionaries, represented here by the id
under which the record lives in the scan heap, so that the in-place
mutation of is_duplicate remains visible from the tree exactly as in the
source. -/
inductive Node : Type where
  | dir (name : String) (path : String) (id : Nat) (children : List Node) : Node
  | file (fid : Nat) : Node

/-- Mutable state threaded through one scan: the node_id_counter, the heap
of file_info records keyed by node id (modelling Python's shared mutable
dictionaries), the file_hashes duplicate index (digest to id of the
first-seen record), the duplicate_files pair list, the flat all_files
list (ids, in append order), and createdIds, a ghost trace recording
every id in the order node_id_counter was read and incremented. -/
structure ScanState where
  counter : Nat
  heap : Nat → Option FileInfo
  file_hashes : List (String × Nat)
  duplicate_files : List (Nat × Nat)
  all_files : List Nat
  createdIds : List Nat

/-- Update the heap at one id (creation of a record). -/
def heapSet (h : Nat → Option FileInfo) (i : Nat) (r : FileInfo) : Nat → Option FileInfo :=
  fun j => if j = i then some r else h j

/-- Mutate the record stored at id i in place, setting is_duplicate to
true (the source's original_file['is_duplicate'] = True seen through the
heap). -/
def markDup (h : Nat → Option FileInfo) (i : Nat) : Nat → Option FileInfo :=
  fun j => if j = i then (h j).map (fun r => { r with is_duplicate := true }) else h j

/-- Lookup in the file_hashes dictionary (first match; keys are inserted
at most once, so this coincides with Python dict lookup). -/
def lookupIdx : List (String × Nat) → String → Option Nat
  | [], _ => none
  | (k, v) :: rest, h => if k = h then some v else lookupIdx rest h

/-- Index (from the right) of the last occurrence of a character, -1 when
absent; the helper behind os.path.basename and os.path.splitext. -/
def rfindIdx (c : Char) : List Char → Int
  | [] => -1
  | a :: rest =>
    let r := rfindIdx c rest
    if 0 ≤ r then r + 1 else if a = c then 0 else -1

/-- os.path.basename: everything after the last slash. -/
def basename (p : String) : String :=
  String.mk (p.data.drop (rfindIdx '/' p.data + 1).toNat)

/-- os.path.splitext(p)[1].lower(): the suffix starting at the last dot,
provided that dot lies after the last slash and some character strictly
between the last slash and that dot is not itself a dot; empty otherwise. -/
def splitext_ext (p : String) : String :=
  let cs := p.data
  let sepIndex := rfindIdx '/' cs
  let dotIndex := rfindIdx '.' cs
  if sepIndex < dotIndex ∧
      ((List.range cs.length).any
        (fun i => decide (sepIndex < (i : Int)) && decide ((i : Int) < dotIndex)
          && decide (cs.getD i '.' ≠ '.'))) = true then
    String.mk ((cs.drop dotIndex.toNat).map Char.toLower)
  else ""

/-- Python timedelta.days of (now - last_modified), both in integer UNIX
seconds: floor division by 86400 (timedelta normalises toward negative
infinity, which Int.fdiv matches). -/
def timedelta_days (now lm : Int) : Int := Int.fdiv (now - lm) 86400

/-- get_file_info (main.py lines 96-128): on stat success build the
file_info record, assign the next id and advance the counter; on stat
failure return None and leave the counter untouched. -/
def get_file_info (now : Int) (filepath : String) (f : FileFS) (counter : Nat) :
    Option FileInfo × Nat :=
  match f.statInfo with
  | none => (none, counter)
  | some stat_info =>
    ( some
        { name := basename filepath
          path := filepath
          size := stat_info.size
          creation_date := stat_info.st_ctime
          last_modified := stat_info.st_mtime
          extension := splitext_ext filepath
          hash := none
          type := "file"
          id := counter
          is_duplicate := false
          is_old := decide (5 * 365 < timedelta_days now stat_info.st_mtime)
          is_large := decide (100 * 1024 * 1024 < stat_info.size)
          is_empty := stat_info.size == 0 }
      , counter + 1 )

/-- get_file_hashes (main.py lines 130-145): for each path of the batch,
either the hex digest of the content or None when reading raised.  The
result dictionary is keyed by path; within one directory scandir yields
pairwise distinct names, so iteration over it in insertion order is the
batch order, which the list of pairs represents directly. -/
def get_file_hashes (filepaths : List FileFS) : List (FileFS × Option String) :=
  filepaths.map (fun f => (f, f.hashOutcome))

/-- Body of the loop of process_file_batch (main.py lines 82-94) for one
(filepath, file_hash) item: build file_info; if stat failed, skip the
file entirely; otherwise append it to all_files, run the duplicate-index
step (mark both records when the digest is already present, otherwise
store this record as the original), and append the file to the directory
node's children. -/
def process_one (now : Int) (dirPath : String) (p : FileFS × Option String)
    (acc : List Node × ScanState) : List Node × ScanState :=
  let children := acc.1
  let st := acc.2
  let filepath := dirPath ++ "/" ++ p.1.name
  let file_hash := p.2
  match get_file_info now filepath p.1 st.counter with
  | (none, _) => (children, st)
  | (some file_info, counter') =>
    let st1 : ScanState :=
      { st with
        counter := counter'
        heap := heapSet st.heap file_info.id file_info
        all_files := st.all_files ++ [file_info.id]
        createdIds := st.createdIds ++ [file_info.id] }
    let st2 : ScanState :=
      match file_hash with
      | some h =>
        match lookupIdx st1.file_hashes h with
        | some originalId =>
          { st1 with
            heap := markDup (markDup st1.heap file_info.id) originalId
            duplicate_files := st1.duplicate_files ++ [(file_info.id, originalId)] }
        | none => { st1 with file_hashes := st1.file_hashes ++ [(h, file_info.id)] }
      | none => st1
    (children ++ [Node.file file_info.id], st2)

/-- The loop of process_file_batch over the batch_hashes items, in batch
order. -/
def process_pairs (now : Int) (dirPath : String) :
    List (FileFS × Option String) → List Node → ScanState → List Node × ScanState
  | [], children, st => (children, st)
  | p :: rest, children, st =>
    let acc := process_one now dirPath p (children, st)
    process_pairs now dirPath rest acc.1 acc.2

/-- process_file_batch (main.py lines 79-94). -/
def process_file_batch (now : Int) (dirPath : String) (filepaths : List FileFS)
    (children : List Node) (st : ScanState) : List Node × ScanState :=
  process_pairs now dirPath (get_file_hashes filepaths) children st

/-- add_nodes (main.py lines 45-74), as a function of the listing the
directory's os.scandir produces.  Arguments: the listing still to
iterate, the children accumulated so far in this directory's node, the
pending files_to_hash batch, and the scan state.  A subdirectory is
recursed into immediately and appended after its subtree is complete; a
file is appended to the batch, which is flushed when it reaches
batch_size; a trailing nonempty batch is flushed when iteration ends; an
exception (fail) keeps what was accumulated, drops the pending batch and
returns. -/
def add_nodes (now : Int) (batch_size : Nat) (dirPath : String) :
    FSListing → List Node → List FileFS → ScanState → List Node × ScanState
  | .fail, children, _, st => (children, st)
  | .done, children, files_to_hash, st =>
    if files_to_hash.isEmpty then (children, st)
    else process_file_batch now dirPath files_to_hash children st
  | .consOther rest, children, files_to_hash, st =>
    add_nodes now batch_size dirPath rest children files_to_hash st
  | .consFile f rest, children, files_to_hash, st =>
    let files' := files_to_hash ++ [f]
    if batch_size ≤ files'.length then
      let flushed := process_file_batch now dirPath files' children st
      add_nodes now batch_size dirPath rest flushed.1 [] flushed.2
    else
      add_nodes now batch_size dirPath rest children files' st
  | .consDir name sub rest, children, files_to_hash, st =>
    let dirId := st.counter
    let entryPath := dirPath ++ "/" ++ name
    let st1 : ScanState := { st with counter := dirId + 1, createdIds := st.createdIds ++ [dirId] }
    let recursed := add_nodes now batch_size entryPath sub [] [] st1
    add_nodes now batch_size dirPath rest
      (children ++ [Node.dir name entryPath dirId recursed.1]) files_to_hash recursed.2

/-- get_file_tree (main.py lines 29-77): create the root node with id 0,
run add_nodes on the root listing, and return the tree together with the
final scan state (whose all_files component is the flat list the source
returns alongside the tree). -/
def get_file_tree (now : Int) (root_dir : String) (listing : FSListing) (batch_size : Nat) :
    Node × ScanState :=
  let rootName := if basename root_dir ≠ "" then basename root_dir else root_dir
  let st0 : ScanState :=
    { counter := 1, heap := fun _ => none, file_hashes := [], duplicate_files := []
      all_files := [], createdIds := [0] }
  let res := add_nodes now batch_size root_dir listing [] [] st0
  (Node.dir rootName root_dir 0 res.1, res.2)

mutual
/-- count_files (main.py lines 428-435): 1 for a file node, the sum over
children for a directory node. -/
def count_files : Node → Nat
  | .file _ => 1
  | .dir _ _ _ children => count_files_list children
/-- Sum of count_files over a child list, left to right. -/
def count_files_list : List Node → Nat
  | [] => 0
  | c :: rest => count_files c + count_files_list rest
end

mutual
/-- Ids of the file nodes of a tree, in depth-first left-to-right order. -/
def fileIds : Node → List Nat
  | .file fid => [fid]
  | .dir _ _ _ children => fileIdsList children
/-- fileIds over a child list. -/
def fileIdsList : List Node → List Nat
  | [] => []
  | c :: rest => fileIds c ++ fileIdsList rest
end

mutual
/-- Ids of all nodes of a tree (directories and files), preorder. -/
def nodeIds : Node → List Nat
  | .file fid => [fid]
  | .dir _ _ i children => i :: nodeIdsList children
/-- nodeIds over a child list. -/
def nodeIdsList : List Node → List Nat
  | [] => []
  | c :: rest => nodeIds c ++ nodeIdsList rest
end

/-- The output tuple of start_scan (main.py lines 404-425), restricted to
the model-relevant components: the loading text, the stored tree, the
stored flat list, and the analysis-complete flag.  The elapsed-time
string is presentation only. -/
structure ScanResponse where
  loading_text : String
  file_tree : Option Node
  all_files_out : Option (List Nat)
  complete : Bool

/-- start_scan (main.py lines 404-425).  root_exists models the outcome
of os.path.exists(directory), which is False exactly when the root is
non-existent or cannot be stat-ed (Python returns False on any OSError);
in that case the scan aborts with no tree.  Otherwise get_file_tree runs
with the default batch size 10, whatever happens below the root. -/
def start_scan (now : Int) (n_clicks : Nat) (directory : String) (root_exists : Bool)
    (listing : FSListing) : ScanResponse :=
  if 0 < n_clicks ∧ directory ≠ "" then
    if root_exists = false then
      { loading_text := "Directory does not exist.", file_tree := none
        all_files_out := none, complete := false }
    else
      let res := get_file_tree now directory listing 10
      { loading_text := "Analysis complete.", file_tree := some res.1
        all_files_out := some res.2.all_files, complete := true }
  else
    { loading_text := "", file_tree := none, all_files_out := none, complete := false }

/-- The id stored in a node (the 'id' key of the underlying dictionary;
for a file node, the id under which its record lives in the heap). -/
def Node.getId : Node → Nat
  | .dir _ _ i _ => i
  | .file fid => fid

/-- A directory listing consisting of the given regular files, enumerated
in order with no failure. -/
def ofFiles : List FileFS → FSListing
  | [] => .done
  | f :: rest => .consFile f (ofFiles rest)

/-- A record with its mutable is_duplicate flag cleared; two records with
equal recordBase differ at most in that one flag. -/
def recordBase (r : FileInfo) : FileInfo := { r with is_duplicate := false }

/-- How a stored record may change over the remainder of a scan: every
immutable field keeps its creation value, and is_duplicate may only move
from false to true, never back. -/
def sameButDup (r r' : FileInfo) : Prop :=
  recordBase r' = recordBase r ∧ (r.is_duplicate = true → r'.is_duplicate = true)

/-- Monotone evolution of the scan state over any span of scanning work:
the id counter never decreases; an existing binding of the duplicate
index is never replaced; a record whose id the duplicate index does not
mention is never touched again and its id never enters the index; and a
record that does exist only ever evolves by sameButDup. -/
structure Evolves (st st' : ScanState) : Prop where
  counter_le : st.counter ≤ st'.counter
  lookup_mono : ∀ h i, lookupIdx st.file_hashes h = some i →
    lookupIdx st'.file_hashes h = some i
  frame : ∀ i, i < st.counter → i ∉ st.file_hashes.map Prod.snd →
    st'.heap i = st.heap i ∧ i ∉ st'.file_hashes.map Prod.snd
  evolve : ∀ i r, i < st.counter → st.heap i = some r →
    ∃ r', st'.heap i = some r' ∧ sameButDup r r'

/-- Every record of the heap has an absent hash field. -/
def heapAllHashNone (st : ScanState) : Prop :=
  ∀ i r, st.heap i = some r → r.hash = none

/-- Concrete stat outcome used by the sample scans below. -/
def exStatA : StatInfo := { size := 5, st_ctime := 100, st_mtime := 200 }

/-- Sample file whose stat and hashing both succeed. -/
def exFileA : FileFS := { name := "a.txt", statInfo := some exStatA, hashOutcome := some "aaa" }

/-- Sample file with the same content digest as exFileA. -/
def exFileB : FileFS := { name := "b.txt", statInfo := some exStatA, hashOutcome := some "aaa" }

/-- Sample file whose stat succeeds but whose hashing fails. -/
def exFileC : FileFS := { name := "c.bin", statInfo := some exStatA, hashOutcome := none }

/-- Sample file whose stat fails. -/
def exFileD : FileFS := { name := "d.txt", statInfo := none, hashOutcome := some "ddd" }

/-- The scan state right after the root node of a scan was created
(node_id_counter already advanced past the root's id 0). -/
def exState : ScanState :=
  { counter := 1, heap := fun _ => none, file_hashes := [], duplicate_files := []
    all_files := [], createdIds := [0] }

/-- The record the scanner builds for exFileA under directory path "root"
at counter value 1 and clock value 0. -/
def exRecordA : FileInfo :=
  { name := "a.txt", path := "root/a.txt", size := 5, creation_date := 100
    last_modified := 200, extension := ".txt", hash := none, type := "file", id := 1
    is_duplicate := false, is_old := false, is_large := false, is_empty := false }

/-- The scan state after exFileA was processed from exState: its record is
in the heap under id 1 and is the stored original for digest "aaa". -/
def exState2 : ScanState :=
  { counter := 2, heap := heapSet (fun _ => none) 1 exRecordA
    file_hashes := [("aaa", 1)], duplicate_files := [], all_files := [1]
    createdIds := [0, 1] }

/-! ### Helper lemmas: list bookkeeping -/

theorem range1_append (s m n : Nat) :
    List.range' s m ++ List.range' (s + m) n = List.range' s (m + n) := by
  have h := List.range'_append s m n 1
  rw [Nat.one_mul] at h
  rw [Nat.add_comm n m] at h
  exact h

theorem fileIdsList_append (l1 l2 : List Node) :
    fileIdsList (l1 ++ l2) = fileIdsList l1 ++ fileIdsList l2 := by
  induction l1 with
  | nil => simp [fileIdsList]
  | cons c rest ih => simp [fileIdsList, ih]

theorem nodeIdsList_append (l1 l2 : List Node) :
    nodeIdsList (l1 ++ l2) = nodeIdsList l1 ++ nodeIdsList l2 := by
  induction l1 with
  | nil => simp [nodeIdsList]
  | cons c rest ih => simp [nodeIdsList, ih]

/-! ### Helper lemmas: structural decomposition of one scan

Every scanning step appends freshly created nodes at the end of the
children accumulator, appends the ids of freshly created file records at
the end of all_files, appends all freshly assigned ids at the end of the
ghost createdIds trace, and the freshly assigned ids, in assignment
order, form the contiguous range starting at the incoming counter. -/

theorem process_one_spec (now : Int) (dp : String) (p : FileFS × Option String)
    (c : List Node) (st : ScanState) :
    ∃ new k,
      (process_one now dp p (c, st)).1 = c ++ new ∧
      (process_one now dp p (c, st)).2.all_files = st.all_files ++ fileIdsList new ∧
      (process_one now dp p (c, st)).2.createdIds = st.createdIds ++ nodeIdsList new ∧
      fileIdsList new = nodeIdsList new ∧
      nodeIdsList new = List.range' st.counter k ∧
      (process_one now dp p (c, st)).2.counter = st.counter + k := by
  obtain ⟨f, oh⟩ := p
  match hstat : f.statInfo with
  | none =>
    refine ⟨[], 0, ?_, ?_, ?_, ?_, ?_, ?_⟩ <;>
      simp [process_one, get_file_info, hstat, fileIdsList, nodeIdsList]
  | some s =>
    refine ⟨[Node.file st.counter], 1, ?_, ?_, ?_, ?_, ?_, ?_⟩ <;>
      cases oh with
      | none =>
        simp [process_one, get_file_info, hstat, fileIdsList, nodeIdsList, fileIds, nodeIds,
          List.range'_one]
      | some h =>
        cases hl : lookupIdx st.file_hashes h <;>
          simp [process_one, get_file_info, hstat, hl, fileIdsList, nodeIdsList, fileIds,
            nodeIds, List.range'_one]

theorem process_pairs_spec (now : Int) (dp : String) :
    ∀ (ps : List (FileFS × Option String)) (c : List Node) (st : ScanState),
      ∃ new k,
        (process_pairs now dp ps c st).1 = c ++ new ∧
        (process_pairs now dp ps c st).2.all_files = st.all_files ++ fileIdsList new ∧
        (process_pairs now dp ps c st).2.createdIds = st.createdIds ++ nodeIdsList new ∧
        fileIdsList new = nodeIdsList new ∧
        nodeIdsList new = List.range' st.counter k ∧
        (process_pairs now dp ps c st).2.counter = st.counter + k := by
  intro ps
  induction ps with
  | nil =>
    intro c st
    refine ⟨[], 0, ?_, ?_, ?_, ?_, ?_, ?_⟩ <;> simp [process_pairs, fileIdsList, nodeIdsList]
  | cons p rest ih =>
    intro c st
    obtain ⟨n1, k1, hc1, ha1, hg1, hf1, hn1, hk1⟩ := process_one_spec now dp p c st
    obtain ⟨n2, k2, hc2, ha2, hg2, hf2, hn2, hk2⟩ :=
      ih (process_one now dp p (c, st)).1 (process_one now dp p (c, st)).2
    rw [ha1] at ha2
    rw [hg1] at hg2
    rw [hk1] at hk2 hn2
    refine ⟨n1 ++ n2, k1 + k2, ?_, ?_, ?_, ?_, ?_, ?_⟩
    · simp only [process_pairs]
      rw [hc2, hc1, List.append_assoc]
    · simp only [process_pairs]
      rw [ha2, fileIdsList_append, List.append_assoc]
    · simp only [process_pairs]
      rw [hg2, nodeIdsList_append, List.append_assoc]
    · rw [fileIdsList_append, nodeIdsList_append, hf1, hf2]
    · rw [nodeIdsList_append, hn1, hn2, range1_append]
    · simp only [process_pairs]
      rw [hk2]
      omega

theorem add_nodes_spec (now : Int) (bs : Nat) :
    ∀ (l : FSListing) (dp : String) (c : List Node) (b : List FileFS) (st : ScanState),
      ∃ new k,
        (add_nodes now bs dp l c b st).1 = c ++ new ∧
        (add_nodes now bs dp l c b st).2.all_files = st.all_files ++ fileIdsList new ∧
        (add_nodes now bs dp l c b st).2.createdIds = st.createdIds ++ nodeIdsList new ∧
        nodeIdsList new = List.range' st.counter k ∧
        (add_nodes now bs dp l c b st).2.counter = st.counter + k := by
  intro l
  induction l with
  | done =>
    intro dp c b st
    by_cases hb : b.isEmpty
    · refine ⟨[], 0, ?_, ?_, ?_, ?_, ?_⟩ <;> simp [add_nodes, hb, fileIdsList, nodeIdsList]
    · obtain ⟨new, k, h1, h2, h3, h4, h5, h6⟩ :=
        process_pairs_spec now dp (get_file_hashes b) c st
      refine ⟨new, k, ?_, ?_, ?_, h5, ?_⟩ <;>
        · simp only [add_nodes, process_file_batch]
          rw [if_neg hb]
          first
          | exact h1
          | exact h2
          | exact h3
          | exact h6
  | fail =>
    intro dp c b st
    refine ⟨[], 0, ?_, ?_, ?_, ?_, ?_⟩ <;> simp [add_nodes, fileIdsList, nodeIdsList]
  | consOther rest ih =>
    intro dp c b st
    obtain ⟨new, k, h1, h2, h3, h4, h5⟩ := ih dp c b st
    exact ⟨new, k, by simp [add_nodes, h1, h2, h3, h4, h5]⟩
  | consFile f rest ih =>
    intro dp c b st
    by_cases hflush : bs ≤ (b ++ [f]).length
    · obtain ⟨n1, k1, hc1, ha1, hg1, hf1, hn1, hk1⟩ :=
        process_pairs_spec now dp (get_file_hashes (b ++ [f])) c st
      obtain ⟨n2, k2, hc2, ha2, hg2, hn2, hk2⟩ :=
        ih dp (process_file_batch now dp (b ++ [f]) c st).1 []
          (process_file_batch now dp (b ++ [f]) c st).2
      simp only [process_file_batch] at hc2 ha2 hg2 hn2 hk2
      rw [ha1] at ha2
      rw [hg1] at hg2
      rw [hk1] at hk2 hn2
      refine ⟨n1 ++ n2, k1 + k2, ?_, ?_, ?_, ?_, ?_⟩
      · simp only [add_nodes, process_file_batch]
        rw [if_pos hflush, hc2, hc1, List.append_assoc]
      · simp only [add_nodes, process_file_batch]
        rw [if_pos hflush, ha2, fileIdsList_append, List.append_assoc]
      · simp only [add_nodes, process_file_batch]
        rw [if_pos hflush, hg2, nodeIdsList_append, List.append_assoc]
      · rw [nodeIdsList_append, hn1, hn2, range1_append]
      · simp only [add_nodes, process_file_batch]
        rw [if_pos hflush, hk2]
        omega
    · obtain ⟨new, k, h1, h2, h3, h4, h5⟩ := ih dp c (b ++ [f]) st
      refine ⟨new, k, ?_, ?_, ?_, h4, ?_⟩ <;>
        · simp only [add_nodes]
          rw [if_neg hflush]
          first
          | exact h1
          | exact h2
          | exact h3
          | exact h5
  | consDir name sub rest ihsub ihrest =>
    intro dp c b st
    obtain ⟨ns, ks, hcs, has, hgs, hns, hks⟩ :=
      ihsub (dp ++ "/" ++ name) [] []
        { st with counter := st.counter + 1, createdIds := st.createdIds ++ [st.counter] }
    dsimp only at has hgs hns hks
    rw [List.nil_append] at hcs
    obtain ⟨nr, kr, hcr, har, hgr, hnr, hkr⟩ :=
      ihrest dp
        (c ++ [Node.dir name (dp ++ "/" ++ name) st.counter
          (add_nodes now bs (dp ++ "/" ++ name) sub [] []
            { st with counter := st.counter + 1
                      createdIds := st.createdIds ++ [st.counter] }).1]) b
        (add_nodes now bs (dp ++ "/" ++ name) sub [] []
          { st with counter := st.counter + 1
                    createdIds := st.createdIds ++ [st.counter] }).2
    rw [has] at har
    rw [hgs] at hgr
    rw [hks] at hkr hnr
    refine ⟨Node.dir name (dp ++ "/" ++ name) st.counter
      (add_nodes now bs (dp ++ "/" ++ name) sub [] []
        { st with counter := st.counter + 1
                  createdIds := st.createdIds ++ [st.counter] }).1 :: nr,
      ks + kr + 1, ?_, ?_, ?_, ?_, ?_⟩
    · simp only [add_nodes]
      rw [hcr]
      simp
    · simp only [add_nodes]
      rw [har]
      simp only [fileIdsList, fileIds, hcs, List.append_assoc]
    · simp only [add_nodes]
      rw [hgr]
      simp [nodeIdsList, nodeIds, hcs, List.append_assoc]
    · simp only [nodeIdsList, nodeIds, hcs, hns, hnr, List.cons_append]
      rw [range1_append, List.range'_succ]
    · simp only [add_nodes]
      rw [hkr]
      omega

/-! ### Helper lemmas: counting successfully processed files -/

theorem process_one_stat_some (now : Int) (dp : String) (p : FileFS × Option String)
    (c : List Node) (st : ScanState) (h : p.1.statInfo.isSome) :
    (process_one now dp p (c, st)).1.length = c.length + 1 ∧
    (process_one now dp p (c, st)).2.all_files.length = st.all_files.length + 1 := by
  obtain ⟨f, oh⟩ := p
  obtain ⟨s, hs⟩ := Option.isSome_iff_exists.mp h
  dsimp only at hs
  cases oh with
  | none => simp [process_one, get_file_info, hs]
  | some hsh =>
    cases hl : lookupIdx st.file_hashes hsh <;>
      simp [process_one, get_file_info, hs, hl]

theorem process_pairs_length (now : Int) (dp : String) :
    ∀ (ps : List (FileFS × Option String)) (c : List Node) (st : ScanState),
      (∀ p ∈ ps, p.1.statInfo.isSome) →
      (process_pairs now dp ps c st).1.length = c.length + ps.length ∧
      (process_pairs now dp ps c st).2.all_files.length = st.all_files.length + ps.length := by
  intro ps
  induction ps with
  | nil => intro c st _; simp [process_pairs]
  | cons p rest ih =>
    intro c st hall
    obtain ⟨h1, h2⟩ := process_one_stat_some now dp p c st (hall p (by simp))
    obtain ⟨h3, h4⟩ :=
      ih (process_one now dp p (c, st)).1 (process_one now dp p (c, st)).2
        (fun q hq => hall q (by simp [hq]))
    constructor
    · simp only [process_pairs]
      rw [h3, h1]
      simp
      omega
    · simp only [process_pairs]
      rw [h4, h2]
      simp
      omega

theorem add_nodes_files_length (now : Int) (bs : Nat) (dp : String) :
    ∀ (fs : List FileFS) (c : List Node) (b : List FileFS) (st : ScanState),
      (∀ f ∈ b, f.statInfo.isSome) → (∀ f ∈ fs, f.statInfo.isSome) →
      (add_nodes now bs dp (ofFiles fs) c b st).1.length = c.length + b.length + fs.length ∧
      (add_nodes now bs dp (ofFiles fs) c b st).2.all_files.length
        = st.all_files.length + b.length + fs.length := by
  intro fs
  induction fs with
  | nil =>
    intro c b st hb _
    by_cases hbe : b.isEmpty
    · rw [List.isEmpty_iff] at hbe
      subst hbe
      simp [ofFiles, add_nodes]
    · obtain ⟨h1, h2⟩ :=
        process_pairs_length now dp (get_file_hashes b) c st
          (by
            intro p hp
            simp only [get_file_hashes, List.mem_map] at hp
            obtain ⟨f, hf, rfl⟩ := hp
            exact hb f hf)
      have hlen : (get_file_hashes b).length = b.length := by simp [get_file_hashes]
      rw [hlen] at h1 h2
      constructor
      · simp only [ofFiles, add_nodes, process_file_batch]
        rw [if_neg hbe, h1]
        simp
      · simp only [ofFiles, add_nodes, process_file_batch]
        rw [if_neg hbe, h2]
        simp
  | cons f fs' ih =>
    intro c b st hb hfs
    have hf : f.statInfo.isSome := hfs f (by simp)
    have hfs' : ∀ g ∈ fs', g.statInfo.isSome := fun g hg => hfs g (by simp [hg])
    have hbf : ∀ g ∈ b ++ [f], g.statInfo.isSome := by
      intro g hg
      rcases List.mem_append.mp hg with h | h
      · exact hb g h
      · simp only [List.mem_singleton] at h
        subst h
        exact hf
    by_cases hflush : bs ≤ (b ++ [f]).length
    · obtain ⟨h1, h2⟩ :=
        process_pairs_length now dp (get_file_hashes (b ++ [f])) c st
          (by
            intro p hp
            simp only [get_file_hashes, List.mem_map] at hp
            obtain ⟨g, hg, rfl⟩ := hp
            exact hbf g hg)
      obtain ⟨h3, h4⟩ :=
        ih (process_file_batch now dp (b ++ [f]) c st).1 []
          (process_file_batch now dp (b ++ [f]) c st).2 (by simp) hfs'
      have hlen : (get_file_hashes (b ++ [f])).length = b.length + 1 := by
        simp [get_file_hashes]
      rw [hlen] at h1 h2
      simp only [process_file_batch] at h3 h4
      constructor
      · simp only [ofFiles, add_nodes, process_file_batch]
        rw [if_pos hflush, h3, h1]
        simp only [List.length_nil, List.length_cons]
        omega
      · simp only [ofFiles, add_nodes, process_file_batch]
        rw [if_pos hflush, h4, h2]
        simp only [List.length_nil, List.length_cons]
        omega
    · obtain ⟨h3, h4⟩ := ih c (b ++ [f]) st hbf hfs'
      constructor
      · simp only [ofFiles, add_nodes]
        rw [if_neg hflush, h3]
        simp only [List.length_append, List.length_cons, List.length_nil]
        omega
      · simp only [ofFiles, add_nodes]
        rw [if_neg hflush, h4]
        simp only [List.length_append, List.length_cons, List.length_nil]
        omega

/-! ### Helper lemmas: the duplicate index and record evolution -/

theorem lookupIdx_append_some (l l2 : List (String × Nat)) (h : String) (i : Nat)
    (hl : lookupIdx l h = some i) : lookupIdx (l ++ l2) h = some i := by
  induction l with
  | nil => simp [lookupIdx] at hl
  | cons p rest ih =>
    obtain ⟨k, v⟩ := p
    simp only [lookupIdx, List.cons_append] at hl ⊢
    by_cases hk : k = h
    · rw [if_pos hk] at hl ⊢
      exact hl
    · rw [if_neg hk] at hl ⊢
      exact ih hl

theorem lookupIdx_mem_snd (l : List (String × Nat)) (h : String) (i : Nat)
    (hl : lookupIdx l h = some i) : i ∈ l.map Prod.snd := by
  induction l with
  | nil => simp [lookupIdx] at hl
  | cons p rest ih =>
    obtain ⟨k, v⟩ := p
    by_cases hk : k = h
    · simp only [lookupIdx, hk, if_pos, Option.some.injEq] at hl
      simp [hl]
    · simp only [lookupIdx, if_neg hk] at hl
      simp [ih hl]

theorem sameButDup_refl (r : FileInfo) : sameButDup r r := ⟨rfl, fun h => h⟩

theorem sameButDup_trans (r1 r2 r3 : FileInfo) (h12 : sameButDup r1 r2)
    (h23 : sameButDup r2 r3) : sameButDup r1 r3 :=
  ⟨h23.1.trans h12.1, fun h => h23.2 (h12.2 h)⟩

theorem sameButDup_mark (r : FileInfo) : sameButDup r { r with is_duplicate := true } :=
  ⟨rfl, fun _ => rfl⟩

theorem evolves_refl (st : ScanState) : Evolves st st where
  counter_le := Nat.le_refl _
  lookup_mono := fun _ _ h => h
  frame := fun _ _ hni => ⟨rfl, hni⟩
  evolve := fun _ r _ hr => ⟨r, hr, sameButDup_refl r⟩

theorem evolves_trans (s1 s2 s3 : ScanState) (h12 : Evolves s1 s2) (h23 : Evolves s2 s3) :
    Evolves s1 s3 where
  counter_le := Nat.le_trans h12.counter_le h23.counter_le
  lookup_mono := fun h i hl => h23.lookup_mono h i (h12.lookup_mono h i hl)
  frame := fun i hi hni => by
    obtain ⟨he, hni2⟩ := h12.frame i hi hni
    obtain ⟨he2, hni3⟩ := h23.frame i (Nat.lt_of_lt_of_le hi h12.counter_le) hni2
    exact ⟨he2.trans he, hni3⟩
  evolve := fun i r hi hr => by
    obtain ⟨r2, hr2, hs2⟩ := h12.evolve i r hi hr
    obtain ⟨r3, hr3, hs3⟩ := h23.evolve i r2 (Nat.lt_of_lt_of_le hi h12.counter_le) hr2
    exact ⟨r3, hr3, sameButDup_trans r r2 r3 hs2 hs3⟩

theorem process_one_evolves (now : Int) (dp : String) (p : FileFS × Option String)
    (c : List Node) (st : ScanState) : Evolves st (process_one now dp p (c, st)).2 := by
  obtain ⟨f, oh⟩ := p
  match hstat : f.statInfo with
  | none =>
    simp only [process_one, get_file_info, hstat]
    exact evolves_refl st
  | some s =>
    cases oh with
    | none =>
      simp only [process_one, get_file_info, hstat]
      constructor
      · exact Nat.le_succ _
      · exact fun _ _ h => h
      · intro i hi hni
        refine ⟨?_, hni⟩
        simp only [heapSet]
        rw [if_neg (by omega)]
      · intro i r hi hr
        refine ⟨r, ?_, sameButDup_refl r⟩
        simp only [heapSet]
        rw [if_neg (by omega)]
        exact hr
    | some hsh =>
      cases hl : lookupIdx st.file_hashes hsh with
      | none =>
        simp only [process_one, get_file_info, hstat, hl]
        constructor
        · exact Nat.le_succ _
        · intro h i hli
          exact lookupIdx_append_some _ _ _ _ hli
        · intro i hi hni
          constructor
          · simp only [heapSet]
            rw [if_neg (by omega)]
          · simp only [List.map_append, List.mem_append]
            rintro (h | h)
            · exact hni h
            · simp only [List.map_cons, List.map_nil, List.mem_singleton] at h
              omega
        · intro i r hi hr
          refine ⟨r, ?_, sameButDup_refl r⟩
          simp only [heapSet]
          rw [if_neg (by omega)]
          exact hr
      | some orig =>
        have horig : orig ∈ st.file_hashes.map Prod.snd := lookupIdx_mem_snd _ _ _ hl
        simp only [process_one, get_file_info, hstat, hl]
        constructor
        · exact Nat.le_succ _
        · exact fun _ _ h => h
        · intro i hi hni
          refine ⟨?_, hni⟩
          have hio : i ≠ orig := fun he => hni (he ▸ horig)
          simp only [markDup, heapSet]
          rw [if_neg hio, if_neg (by omega), if_neg (by omega)]
        · intro i r hi hr
          by_cases hio : i = orig
          · subst hio
            refine ⟨{ r with is_duplicate := true }, ?_, sameButDup_mark r⟩
            have hic : i ≠ st.counter := by omega
            simp only [markDup, heapSet]
            simp [hic, hr]
          · refine ⟨r, ?_, sameButDup_refl r⟩
            simp only [markDup, heapSet]
            rw [if_neg hio, if_neg (by omega), if_neg (by omega)]
            exact hr

theorem process_pairs_evolves (now : Int) (dp : String) :
    ∀ (ps : List (FileFS × Option String)) (c : List Node) (st : ScanState),
      Evolves st (process_pairs now dp ps c st).2 := by
  intro ps
  induction ps with
  | nil => intro c st; exact evolves_refl st
  | cons p rest ih =>
    intro c st
    exact evolves_trans _ _ _ (process_one_evolves now dp p c st)
      (ih (process_one now dp p (c, st)).1 (process_one now dp p (c, st)).2)

theorem add_nodes_evolves (now : Int) (bs : Nat) :
    ∀ (l : FSListing) (dp : String) (c : List Node) (b : List FileFS) (st : ScanState),
      Evolves st (add_nodes now bs dp l c b st).2 := by
  intro l
  induction l with
  | done =>
    intro dp c b st
    by_cases hb : b.isEmpty
    · simp only [add_nodes, hb, if_pos]
      exact evolves_refl st
    · simp only [add_nodes, process_file_batch]
      rw [if_neg hb]
      exact process_pairs_evolves now dp (get_file_hashes b) c st
  | fail =>
    intro dp c b st
    simp only [add_nodes]
    exact evolves_refl st
  | consOther rest ih =>
    intro dp c b st
    simp only [add_nodes]
    exact ih dp c b st
  | consFile f rest ih =>
    intro dp c b st
    by_cases hflush : bs ≤ (b ++ [f]).length
    · simp only [add_nodes]
      rw [if_pos hflush]
      exact evolves_trans _ _ _
        (process_pairs_evolves now dp (get_file_hashes (b ++ [f])) c st)
        (ih dp (process_file_batch now dp (b ++ [f]) c st).1 []
          (process_file_batch now dp (b ++ [f]) c st).2)
    · simp only [add_nodes]
      rw [if_neg hflush]
      exact ih dp c (b ++ [f]) st
  | consDir name sub rest ihsub ihrest =>
    intro dp c b st
    have hstep : Evolves st
        { st with counter := st.counter + 1, createdIds := st.createdIds ++ [st.counter] } := by
      constructor
      · exact Nat.le_succ _
      · exact fun _ _ h => h
      · exact fun i _ hni => ⟨rfl, hni⟩
      · exact fun i r _ hr => ⟨r, hr, sameButDup_refl r⟩
    simp only [add_nodes]
    exact evolves_trans _ _ _ hstep
      (evolves_trans _ _ _
        (ihsub (dp ++ "/" ++ name) [] []
          { st with counter := st.counter + 1, createdIds := st.createdIds ++ [st.counter] })
        (ihrest dp
          (c ++ [Node.dir name (dp ++ "/" ++ name) st.counter
            (add_nodes now bs (dp ++ "/" ++ name) sub [] []
              { st with counter := st.counter + 1
                        createdIds := st.createdIds ++ [st.counter] }).1]) b
          (add_nodes now bs (dp ++ "/" ++ name) sub [] []
            { st with counter := st.counter + 1
                      createdIds := st.createdIds ++ [st.counter] }).2))

/-! ### Helper lemmas: the stored hash field is never populated -/

theorem heapSet_hash_none (hp : Nat → Option FileInfo) (j : Nat) (fi : FileInfo)
    (h : ∀ i r, hp i = some r → r.hash = none) (hfi : fi.hash = none) :
    ∀ i r, heapSet hp j fi i = some r → r.hash = none := by
  intro i r hir
  simp only [heapSet] at hir
  by_cases hij : i = j
  · rw [if_pos hij] at hir
    simp only [Option.some.injEq] at hir
    subst hir
    exact hfi
  · rw [if_neg hij] at hir
    exact h i r hir

theorem markDup_hash_none (hp : Nat → Option FileInfo) (j : Nat)
    (h : ∀ i r, hp i = some r → r.hash = none) :
    ∀ i r, markDup hp j i = some r → r.hash = none := by
  intro i r hir
  simp only [markDup] at hir
  by_cases hij : i = j
  · rw [if_pos hij] at hir
    cases hh : hp i with
    | none => rw [hh] at hir; simp at hir
    | some r0 =>
      rw [hh] at hir
      simp only [Option.map_some', Option.some.injEq] at hir
      subst hir
      exact h i r0 hh
  · rw [if_neg hij] at hir
    exact h i r hir

theorem process_one_hash_none (now : Int) (dp : String) (p : FileFS × Option String)
    (c : List Node) (st : ScanState) (h : heapAllHashNone st) :
    heapAllHashNone (process_one now dp p (c, st)).2 := by
  obtain ⟨f, oh⟩ := p
  match hstat : f.statInfo with
  | none =>
    simp only [process_one, get_file_info, hstat]
    exact h
  | some s =>
    cases oh with
    | none =>
      simp only [process_one, get_file_info, hstat]
      exact heapSet_hash_none st.heap st.counter _ h rfl
    | some hsh =>
      cases hl : lookupIdx st.file_hashes hsh with
      | none =>
        simp only [process_one, get_file_info, hstat, hl]
        exact heapSet_hash_none st.heap st.counter _ h rfl
      | some orig =>
        simp only [process_one, get_file_info, hstat, hl]
        exact markDup_hash_none _ orig
          (markDup_hash_none _ st.counter (heapSet_hash_none st.heap st.counter _ h rfl))

theorem process_pairs_hash_none (now : Int) (dp : String) :
    ∀ (ps : List (FileFS × Option String)) (c : List Node) (st : ScanState),
      heapAllHashNone st → heapAllHashNone (process_pairs now dp ps c st).2 := by
  intro ps
  induction ps with
  | nil => intro c st h; exact h
  | cons p rest ih =>
    intro c st h
    exact ih (process_one now dp p (c, st)).1 (process_one now dp p (c, st)).2
      (process_one_hash_none now dp p c st h)

theorem add_nodes_hash_none (now : Int) (bs : Nat) :
    ∀ (l : FSListing) (dp : String) (c : List Node) (b : List FileFS) (st : ScanState),
      heapAllHashNone st → heapAllHashNone (add_nodes now bs dp l c b st).2 := by
  intro l
  induction l with
  | done =>
    intro dp c b st h
    by_cases hb : b.isEmpty
    · simpa only [add_nodes, hb, if_pos] using h
    · simp only [add_nodes, process_file_batch]
      rw [if_neg hb]
      exact process_pairs_hash_none now dp (get_file_hashes b) c st h
  | fail =>
    intro dp c b st h
    simpa only [add_nodes] using h
  | consOther rest ih =>
    intro dp c b st h
    simp only [add_nodes]
    exact ih dp c b st h
  | consFile f rest ih =>
    intro dp c b st h
    by_cases hflush : bs ≤ (b ++ [f]).length
    · simp only [add_nodes]
      rw [if_pos hflush]
      exact ih dp _ [] _
        (process_pairs_hash_none now dp (get_file_hashes (b ++ [f])) c st h)
    · simp only [add_nodes]
      rw [if_neg hflush]
      exact ih dp c (b ++ [f]) st h
  | consDir name sub rest ihsub ihrest =>
    intro dp c b st h
    simp only [add_nodes]
    exact ihrest dp _ b _
      (ihsub (dp ++ "/" ++ name) [] []
        { st with counter := st.counter + 1, createdIds := st.createdIds ++ [st.counter] } h)

/-! ### Helper lemmas: counting file nodes of a tree -/

mutual
theorem count_files_eq : (n : Node) → count_files n = (fileIds n).length
  | .file _ => rfl
  | .dir _ _ _ cs => by
    rw [count_files, fileIds]
    exact count_files_list_eq cs
theorem count_files_list_eq : (l : List Node) → count_files_list l = (fileIdsList l).length
  | [] => rfl
  | c :: rest => by
    rw [count_files_list, fileIdsList, List.length_append,
      count_files_eq c, count_files_list_eq rest]
end

theorem lookupIdx_append_self (l : List (String × Nat)) (h : String) (v : Nat)
    (hl : lookupIdx l h = none) : lookupIdx (l ++ [(h, v)]) h = some v := by
  induction l with
  | nil => simp [lookupIdx]
  | cons p rest ih =>
    obtain ⟨k, w⟩ := p
    simp only [lookupIdx, List.cons_append] at hl ⊢
    by_cases hk : k = h
    · rw [if_pos hk] at hl
      exact absurd hl (by simp)
    · rw [if_neg hk] at hl ⊢
      exact ih hl

theorem process_pairs_skip (now : Int) (dp : String) (f : FileFS)
    (hf : f.statInfo = none) (oh : Option String) :
    ∀ (ps1 ps2 : List (FileFS × Option String)) (c : List Node) (st : ScanState),
      process_pairs now dp (ps1 ++ (f, oh) :: ps2) c st
        = process_pairs now dp (ps1 ++ ps2) c st := by
  intro ps1
  induction ps1 with
  | nil =>
    intro ps2 c st
    simp only [List.nil_append, process_pairs]
    simp [process_one, get_file_info, hf]
  | cons p rest ih =>
    intro ps2 c st
    simp only [List.cons_append, process_pairs]
    exact ih ps2 _ _

theorem sameButDup_fields (r r' : FileInfo) (h : sameButDup r r') :
    r'.name = r.name ∧ r'.path = r.path ∧ r'.size = r.size ∧
    r'.creation_date = r.creation_date ∧ r'.last_modified = r.last_modified ∧
    r'.extension = r.extension ∧ r'.hash = r.hash ∧ r'.type = r.type ∧ r'.id = r.id ∧
    r'.is_old = r.is_old ∧ r'.is_large = r.is_large ∧ r'.is_empty = r.is_empty ∧
    (r.is_duplicate = true → r'.is_duplicate = true) := by
  have hb := h.1
  have hd := h.2
  cases r
  cases r'
  simp only [recordBase, FileInfo.mk.injEq, true_and, and_true] at hb
  obtain ⟨e1, e2, e3, e4, e5, e6, e7, e8, e9, e10, e11, e12⟩ := hb
  exact ⟨e1, e2, e3, e4, e5, e6, e7, e8, e9, e10, e11, e12, hd⟩

/-! ### Claim theorems -/

/-- Claim C2: for every scan that completes, the flat all_files list and
the file nodes reachable in the returned tree carry exactly the same
records: the id lists agree outright, hence the multisets of FileRecords
agree, and count_files applied to the tree equals the length of
all_files. -/
theorem C2_tree_flat_agreement (now : Int) (root_dir : String) (l : FSListing) (bs : Nat) :
    fileIds (get_file_tree now root_dir l bs).1
      = (get_file_tree now root_dir l bs).2.all_files ∧
    (((fileIds (get_file_tree now root_dir l bs).1).map
        (get_file_tree now root_dir l bs).2.heap : List (Option FileInfo)) :
        Multiset (Option FileInfo))
      = (((get_file_tree now root_dir l bs).2.all_files.map
        (get_file_tree now root_dir l bs).2.heap : List (Option FileInfo)) :
        Multiset (Option FileInfo)) ∧
    count_files (get_file_tree now root_dir l bs).1
      = (get_file_tree now root_dir l bs).2.all_files.length := by
  obtain ⟨new, k, hc, ha, hg, hn, hk⟩ :=
    add_nodes_spec now bs l root_dir [] []
      { counter := 1, heap := fun _ => none, file_hashes := [], duplicate_files := []
        all_files := [], createdIds := [0] }
  dsimp only at ha
  rw [List.nil_append] at hc ha
  have h1 : fileIds (get_file_tree now root_dir l bs).1
      = (get_file_tree now root_dir l bs).2.all_files := by
    simp only [get_file_tree, fileIds]
    rw [hc, ha]
  refine ⟨h1, by rw [h1], ?_⟩
  simp only [get_file_tree, count_files]
  rw [count_files_list_eq, hc, ha]

/-- Claim C9: within one scan, node ids are produced by one counter read
and incremented exactly once per created node: the ghost trace of
assigned ids is exactly the range 0, 1, ..., counter-1 (so ids start at 0
for the root, are pairwise distinct, and the counter advanced once per
node); the preorder id list of the returned tree coincides with the
assignment trace, is strictly increasing in discovery order, and the
root's id is 0. -/
theorem C9_identifier_assignment (now : Int) (root_dir : String) (l : FSListing) (bs : Nat) :
    nodeIds (get_file_tree now root_dir l bs).1
      = (get_file_tree now root_dir l bs).2.createdIds ∧
    (get_file_tree now root_dir l bs).2.createdIds
      = List.range (get_file_tree now root_dir l bs).2.counter ∧
    (get_file_tree now root_dir l bs).1.getId = 0 ∧
    (get_file_tree now root_dir l bs).2.createdIds.length
      = (get_file_tree now root_dir l bs).2.counter ∧
    List.Pairwise (fun a b => a < b) (nodeIds (get_file_tree now root_dir l bs).1) ∧
    (nodeIds (get_file_tree now root_dir l bs).1).Nodup := by
  obtain ⟨new, k, hc, ha, hg, hn, hk⟩ :=
    add_nodes_spec now bs l root_dir [] []
      { counter := 1, heap := fun _ => none, file_hashes := [], duplicate_files := []
        all_files := [], createdIds := [0] }
  dsimp only at hg hn hk
  rw [List.nil_append] at hc
  have h2 : (get_file_tree now root_dir l bs).2.createdIds
      = List.range (get_file_tree now root_dir l bs).2.counter := by
    simp only [get_file_tree]
    rw [hg, hk, hn, List.range_eq_range', Nat.add_comm 1 k, List.range'_succ]
    simp
  have h1 : nodeIds (get_file_tree now root_dir l bs).1
      = (get_file_tree now root_dir l bs).2.createdIds := by
    simp only [get_file_tree, nodeIds]
    rw [hc, hg]
    simp
  refine ⟨h1, h2, ?_, ?_, ?_, ?_⟩
  · simp [get_file_tree, Node.getId]
  · rw [h2]
    simp
  · rw [h1, h2]
    exact List.pairwise_lt_range _
  · rw [h1, h2]
    exact List.nodup_range _

/-- Claim C5: for every successfully stat-ed file, is_empty holds exactly
for size 0; is_large is strict (a file of exactly 100*1024*1024 bytes is
not large, one byte more is); is_old is strict (a file last modified
exactly 5*365 days before now is not old, one day older is). -/
theorem C5_classification_thresholds (now : Int) (filepath : String) (f : FileFS)
    (counter : Nat) (s : StatInfo) (hs : f.statInfo = some s) :
    ∃ fi, (get_file_info now filepath f counter).1 = some fi ∧
      (fi.is_empty = true ↔ s.size = 0) ∧
      (fi.is_large = true ↔ 100 * 1024 * 1024 < s.size) ∧
      (s.size = 100 * 1024 * 1024 → fi.is_large = false) ∧
      (s.size = 100 * 1024 * 1024 + 1 → fi.is_large = true) ∧
      (fi.is_old = true ↔ 5 * 365 < timedelta_days now s.st_mtime) ∧
      (now - s.st_mtime = 5 * 365 * 86400 → fi.is_old = false) ∧
      (now - s.st_mtime = (5 * 365 + 1) * 86400 → fi.is_old = true) := by
  simp only [get_file_info, hs]
  refine ⟨_, rfl, ?_, ?_, ?_, ?_, ?_, ?_, ?_⟩
  · simp
  · simp
  · intro h
    rw [h]
    rfl
  · intro h
    rw [h]
    rfl
  · simp
  · intro h
    have hd : timedelta_days now s.st_mtime = 5 * 365 := by
      simp only [timedelta_days]
      rw [h]
      decide
    show decide (5 * 365 < timedelta_days now s.st_mtime) = false
    simp only [hd]
    decide
  · intro h
    have hd : timedelta_days now s.st_mtime = 5 * 365 + 1 := by
      simp only [timedelta_days]
      rw [h]
      decide
    show decide (5 * 365 < timedelta_days now s.st_mtime) = true
    simp only [hd]
    decide

/-- Witness for C5 at a concrete input. -/
theorem C5_classification_thresholds_witness :
    ∃ fi, (get_file_info 0 "root/a.txt" exFileA 1).1 = some fi ∧
      (fi.is_empty = true ↔ exStatA.size = 0) ∧
      (fi.is_large = true ↔ 100 * 1024 * 1024 < exStatA.size) ∧
      (exStatA.size = 100 * 1024 * 1024 → fi.is_large = false) ∧
      (exStatA.size = 100 * 1024 * 1024 + 1 → fi.is_large = true) ∧
      (fi.is_old = true ↔ 5 * 365 < timedelta_days 0 exStatA.st_mtime) ∧
      (0 - exStatA.st_mtime = 5 * 365 * 86400 → fi.is_old = false) ∧
      (0 - exStatA.st_mtime = (5 * 365 + 1) * 86400 → fi.is_old = true) :=
  C5_classification_thresholds 0 "root/a.txt" exFileA 1 exStatA rfl

/-- Claim C6: for every batch size at least 1 and every directory that
enumerates exactly batch_size + 1 successfully stat-able files, the scan
of that directory produces exactly batch_size + 1 file nodes and adds
exactly batch_size + 1 records to the flat list: the trailing partial
batch is flushed and no file is lost or duplicated at a batch
boundary. -/
theorem C6_batch_boundary (now : Int) (dp : String) (bs : Nat) (fs : List FileFS)
    (st : ScanState) (hbs : 1 ≤ bs) (hlen : fs.length = bs + 1)
    (hok : ∀ f ∈ fs, f.statInfo.isSome) :
    (add_nodes now bs dp (ofFiles fs) [] [] st).1.length = bs + 1 ∧
    (add_nodes now bs dp (ofFiles fs) [] [] st).2.all_files.length
      = st.all_files.length + (bs + 1) := by
  obtain ⟨h1, h2⟩ := add_nodes_files_length now bs dp fs [] [] st (by simp) hok
  constructor
  · rw [h1, hlen]
    simp
  · rw [h2, hlen]
    simp

/-- Witness for C6: batch size 2 with three processable files yields
exactly three records. -/
theorem C6_batch_boundary_witness :
    (add_nodes 0 2 "root" (ofFiles [exFileA, exFileB, exFileC]) [] [] exState).1.length
        = 2 + 1 ∧
    (add_nodes 0 2 "root" (ofFiles [exFileA, exFileB, exFileC]) [] [] exState).2.all_files.length
        = exState.all_files.length + (2 + 1) :=
  C6_batch_boundary 0 "root" 2 [exFileA, exFileB, exFileC] exState (by decide) rfl
    (by decide)

/-- Claim C7: a subdirectory whose enumeration fails at entry behaves
exactly like an accessible empty subdirectory: the whole remaining scan
is unchanged (so sibling directories and files are processed unaffected
and the scan still terminates with a best-effort tree), and the failed
directory is still present in the output as a node with zero children. -/
theorem C7_subtree_error_isolation :
    (∀ (now : Int) (bs : Nat) (dp nm : String) (sub rest : FSListing) (c : List Node)
        (b : List FileFS) (st : ScanState), sub = FSListing.fail →
      add_nodes now bs dp (FSListing.consDir nm sub rest) c b st
        = add_nodes now bs dp (FSListing.consDir nm FSListing.done rest) c b st) ∧
    (∀ (now : Int) (bs : Nat) (dp nm : String) (rest : FSListing) (c : List Node)
        (b : List FileFS) (st : ScanState),
      ∃ suffix, (add_nodes now bs dp (FSListing.consDir nm FSListing.fail rest) c b st).1
        = c ++ Node.dir nm (dp ++ "/" ++ nm) st.counter [] :: suffix) := by
  constructor
  · intro now bs dp nm sub rest c b st hsub
    subst hsub
    simp [add_nodes]
  · intro now bs dp nm rest c b st
    obtain ⟨new, k, hc, ha, hg, hn, hk⟩ :=
      add_nodes_spec now bs rest dp (c ++ [Node.dir nm (dp ++ "/" ++ nm) st.counter []]) b
        { st with counter := st.counter + 1, createdIds := st.createdIds ++ [st.counter] }
    refine ⟨new, ?_⟩
    simp only [add_nodes]
    rw [hc]
    simp

/-- Witness for C7 (its first part carries a hypothesis): at a concrete
listing, the scan of a tree whose one subdirectory fails equals the scan
with that subdirectory empty. -/
theorem C7_subtree_error_isolation_witness :
    add_nodes 0 10 "root" (FSListing.consDir "sub" FSListing.fail (ofFiles [exFileA])) [] []
        exState
      = add_nodes 0 10 "root" (FSListing.consDir "sub" FSListing.done (ofFiles [exFileA])) [] []
        exState :=
  C7_subtree_error_isolation.1 0 10 "root" "sub" FSListing.fail (ofFiles [exFileA]) [] []
    exState rfl

/-- Claim C8: with the button clicked and a nonempty directory string,
start_scan fails to produce a tree exactly when os.path.exists is false
on the root, i.e. when the root is non-existent or cannot be stat-ed;
whenever the root passes that check, a tree and flat list are produced
and the scan completes, whatever failures occur below the root (the
listing, including a failing root enumeration, is arbitrary). -/
theorem C8_root_failure_asymmetry (now : Int) (n_clicks : Nat) (directory : String)
    (root_exists : Bool) (l : FSListing) (hn : 0 < n_clicks) (hd : directory ≠ "") :
    ((start_scan now n_clicks directory root_exists l).file_tree = none
      ↔ root_exists = false) ∧
    (root_exists = true →
      (start_scan now n_clicks directory root_exists l).file_tree
          = some (get_file_tree now directory l 10).1 ∧
      (start_scan now n_clicks directory root_exists l).all_files_out
          = some (get_file_tree now directory l 10).2.all_files ∧
      (start_scan now n_clicks directory root_exists l).complete = true) := by
  cases root_exists
  · simp [start_scan, hn, hd]
  · simp [start_scan, hn, hd]

/-- Witness for C8 at concrete inputs, for a missing root and for an
accessible root over a listing that fails below the root. -/
theorem C8_root_failure_asymmetry_witness :
    (((start_scan 0 1 "root" false (ofFiles [exFileA])).file_tree = none
      ↔ false = false) ∧
    (false = true →
      (start_scan 0 1 "root" false (ofFiles [exFileA])).file_tree
          = some (get_file_tree 0 "root" (ofFiles [exFileA]) 10).1 ∧
      (start_scan 0 1 "root" false (ofFiles [exFileA])).all_files_out
          = some (get_file_tree 0 "root" (ofFiles [exFileA]) 10).2.all_files ∧
      (start_scan 0 1 "root" false (ofFiles [exFileA])).complete = true)) ∧
    (((start_scan 0 1 "root" true FSListing.fail).file_tree = none ↔ true = false) ∧
    (true = true →
      (start_scan 0 1 "root" true FSListing.fail).file_tree
          = some (get_file_tree 0 "root" FSListing.fail 10).1 ∧
      (start_scan 0 1 "root" true FSListing.fail).all_files_out
          = some (get_file_tree 0 "root" FSListing.fail 10).2.all_files ∧
      (start_scan 0 1 "root" true FSListing.fail).complete = true)) :=
  ⟨C8_root_failure_asymmetry 0 1 "root" false (ofFiles [exFileA]) (by decide) (by decide),
   C8_root_failure_asymmetry 0 1 "root" true FSListing.fail (by decide) (by decide)⟩

/-- Claim C1: duplicate-index semantics over one scan.  Every span of
scanning work evolves the state monotonically (Evolves).  A record whose
digest is absent leaves the index untouched, is created unflagged, and --
given the scan invariant that the index only mentions already-assigned
ids -- its record is never touched again by any later evolution, so it is
never flagged duplicate.  The first record carrying a digest is stored as
the original for that digest with its flag still false at that moment.
A later record carrying an already-stored digest is flagged, the stored
original is flagged in place, and the index entry for the digest still
names the original: it is never replaced. -/
theorem C1_duplicate_index_semantics :
    (∀ (now : Int) (bs : Nat) (l : FSListing) (dp : String) (c : List Node)
        (b : List FileFS) (st : ScanState),
      Evolves st (add_nodes now bs dp l c b st).2) ∧
    (∀ (now : Int) (dp : String) (f : FileFS) (s : StatInfo) (c : List Node)
        (st : ScanState), f.statInfo = some s → f.hashOutcome = none →
      (process_one now dp (f, f.hashOutcome) (c, st)).2.file_hashes = st.file_hashes ∧
      ((process_one now dp (f, f.hashOutcome) (c, st)).2.heap st.counter).map
          FileInfo.is_duplicate = some false ∧
      (∀ st2, Evolves (process_one now dp (f, f.hashOutcome) (c, st)).2 st2 →
        (∀ j ∈ st.file_hashes.map Prod.snd, j < st.counter) →
        st2.heap st.counter
          = (process_one now dp (f, f.hashOutcome) (c, st)).2.heap st.counter)) ∧
    (∀ (now : Int) (dp : String) (f : FileFS) (s : StatInfo) (h : String)
        (c : List Node) (st : ScanState),
      f.statInfo = some s → f.hashOutcome = some h → lookupIdx st.file_hashes h = none →
      lookupIdx (process_one now dp (f, f.hashOutcome) (c, st)).2.file_hashes h
          = some st.counter ∧
      ((process_one now dp (f, f.hashOutcome) (c, st)).2.heap st.counter).map
          FileInfo.is_duplicate = some false) ∧
    (∀ (now : Int) (dp : String) (f : FileFS) (s : StatInfo) (h : String) (orig : Nat)
        (ro : FileInfo) (c : List Node) (st : ScanState),
      f.statInfo = some s → f.hashOutcome = some h →
      lookupIdx st.file_hashes h = some orig → st.heap orig = some ro →
      (∀ j ∈ st.file_hashes.map Prod.snd, j < st.counter) →
      ((process_one now dp (f, f.hashOutcome) (c, st)).2.heap st.counter).map
          FileInfo.is_duplicate = some true ∧
      (process_one now dp (f, f.hashOutcome) (c, st)).2.heap orig
          = some { ro with is_duplicate := true } ∧
      (process_one now dp (f, f.hashOutcome) (c, st)).2.file_hashes = st.file_hashes ∧
      lookupIdx (process_one now dp (f, f.hashOutcome) (c, st)).2.file_hashes h
          = some orig) := by
  refine ⟨?_, ?_, ?_, ?_⟩
  · intro now bs l dp c b st
    exact add_nodes_evolves now bs l dp c b st
  · intro now dp f s c st hstat hho
    rw [hho]
    simp only [process_one, get_file_info, hstat]
    refine ⟨?_, ?_, ?_⟩
    · first
      | trivial
      | rfl
    · simp [heapSet]
    · intro st2 hev hinv
      exact (hev.frame st.counter (Nat.lt_succ_self st.counter)
        (fun hmem => Nat.lt_irrefl _ (hinv _ hmem))).1
  · intro now dp f s h c st hstat hho hl
    rw [hho]
    simp only [process_one, get_file_info, hstat, hl]
    refine ⟨?_, ?_⟩
    · first
      | trivial
      | exact lookupIdx_append_self st.file_hashes h st.counter hl
    · simp [heapSet]
  · intro now dp f s h orig ro c st hstat hho hl hro hinv
    have horiglt : orig < st.counter := hinv orig (lookupIdx_mem_snd _ _ _ hl)
    rw [hho]
    simp only [process_one, get_file_info, hstat, hl]
    refine ⟨?_, ?_, ?_, ?_⟩
    · have hne : st.counter ≠ orig := by omega
      simp [markDup, heapSet, hne]
    · have hne : orig ≠ st.counter := by omega
      simp [markDup, heapSet, hne, hro]
    · first
      | trivial
      | rfl
    · first
      | trivial
      | exact hl

/-- Witness for C1 at concrete inputs: a whole-scan evolution, a
hash-failed file, a first occurrence of digest "aaa", and a second
occurrence of digest "aaa" against the state storing its original. -/
theorem C1_duplicate_index_semantics_witness :
    Evolves exState (add_nodes 0 10 "root" (ofFiles [exFileA, exFileB]) [] [] exState).2 ∧
    ((process_one 0 "root" (exFileC, exFileC.hashOutcome) ([], exState)).2.file_hashes
        = exState.file_hashes ∧
      ((process_one 0 "root" (exFileC, exFileC.hashOutcome) ([], exState)).2.heap
          exState.counter).map FileInfo.is_duplicate = some false ∧
      (∀ st2,
        Evolves (process_one 0 "root" (exFileC, exFileC.hashOutcome) ([], exState)).2 st2 →
        (∀ j ∈ exState.file_hashes.map Prod.snd, j < exState.counter) →
        st2.heap exState.counter
          = (process_one 0 "root" (exFileC, exFileC.hashOutcome) ([], exState)).2.heap
              exState.counter)) ∧
    (lookupIdx
        (process_one 0 "root" (exFileA, exFileA.hashOutcome) ([], exState)).2.file_hashes
        "aaa" = some exState.counter ∧
      ((process_one 0 "root" (exFileA, exFileA.hashOutcome) ([], exState)).2.heap
          exState.counter).map FileInfo.is_duplicate = some false) ∧
    (((process_one 0 "root" (exFileB, exFileB.hashOutcome) ([], exState2)).2.heap
          exState2.counter).map FileInfo.is_duplicate = some true ∧
      (process_one 0 "root" (exFileB, exFileB.hashOutcome) ([], exState2)).2.heap 1
          = some { exRecordA with is_duplicate := true } ∧
      (process_one 0 "root" (exFileB, exFileB.hashOutcome) ([], exState2)).2.file_hashes
          = exState2.file_hashes ∧
      lookupIdx
        (process_one 0 "root" (exFileB, exFileB.hashOutcome) ([], exState2)).2.file_hashes
        "aaa" = some 1) :=
  ⟨C1_duplicate_index_semantics.1 0 10 (ofFiles [exFileA, exFileB]) "root" [] [] exState,
   C1_duplicate_index_semantics.2.1 0 "root" exFileC exStatA [] exState rfl rfl,
   C1_duplicate_index_semantics.2.2.1 0 "root" exFileA exStatA "aaa" [] exState rfl rfl rfl,
   C1_duplicate_index_semantics.2.2.2 0 "root" exFileB exStatA "aaa" 1 exRecordA []
     exState2 rfl rfl (by decide) (by decide) (by decide)⟩

/-- Claim C3: error-recovery asymmetry.  A file whose stat fails
contributes nothing: processing a batch containing it equals processing
the batch without it (so it reaches neither the tree nor the flat list
and processing continues).  A file whose stat succeeds but whose hashing
fails is still recorded in the children and the flat list, its record
carries no digest, the duplicate index is untouched, its flag is false,
and -- under the scan invariant on the index -- no later evolution of the
scan ever touches its record. -/
theorem C3_error_recovery_asymmetry :
    (∀ (now : Int) (dp : String) (b1 : List FileFS) (f : FileFS) (b2 : List FileFS)
        (c : List Node) (st : ScanState), f.statInfo = none →
      process_file_batch now dp (b1 ++ f :: b2) c st
        = process_file_batch now dp (b1 ++ b2) c st) ∧
    (∀ (now : Int) (dp : String) (f : FileFS) (s : StatInfo) (c : List Node)
        (st : ScanState), f.statInfo = some s → f.hashOutcome = none →
      (process_one now dp (f, f.hashOutcome) (c, st)).1 = c ++ [Node.file st.counter] ∧
      (process_one now dp (f, f.hashOutcome) (c, st)).2.all_files
          = st.all_files ++ [st.counter] ∧
      (process_one now dp (f, f.hashOutcome) (c, st)).2.file_hashes = st.file_hashes ∧
      ((process_one now dp (f, f.hashOutcome) (c, st)).2.heap st.counter).map
          FileInfo.hash = some none ∧
      ((process_one now dp (f, f.hashOutcome) (c, st)).2.heap st.counter).map
          FileInfo.is_duplicate = some false ∧
      (∀ st2,
        Evolves (process_one now dp (f, f.hashOutcome) (c, st)).2 st2 →
        (∀ j ∈ st.file_hashes.map Prod.snd, j < st.counter) →
        st2.heap st.counter
          = (process_one now dp (f, f.hashOutcome) (c, st)).2.heap st.counter)) := by
  constructor
  · intro now dp b1 f b2 c st hf
    simp only [process_file_batch, get_file_hashes, List.map_append, List.map_cons]
    exact process_pairs_skip now dp f hf f.hashOutcome _ _ c st
  · intro now dp f s c st hstat hho
    rw [hho]
    simp only [process_one, get_file_info, hstat]
    refine ⟨?_, ?_, ?_, ?_, ?_, ?_⟩
    · first
      | trivial
      | rfl
    · first
      | trivial
      | rfl
    · first
      | trivial
      | rfl
    · simp [heapSet]
    · simp [heapSet]
    · intro st2 hev hinv
      exact (hev.frame st.counter (Nat.lt_succ_self st.counter)
        (fun hmem => Nat.lt_irrefl _ (hinv _ hmem))).1

/-- Witness for C3 at concrete inputs: a stat-failing file dropped from
the middle of a batch, and a hash-failing file recorded without digest. -/
theorem C3_error_recovery_asymmetry_witness :
    (process_file_batch 0 "root" ([exFileA] ++ exFileD :: [exFileB]) [] exState
        = process_file_batch 0 "root" ([exFileA] ++ [exFileB]) [] exState) ∧
    ((process_one 0 "root" (exFileC, exFileC.hashOutcome) ([], exState)).1
        = [] ++ [Node.file exState.counter] ∧
      (process_one 0 "root" (exFileC, exFileC.hashOutcome) ([], exState)).2.all_files
          = exState.all_files ++ [exState.counter] ∧
      (process_one 0 "root" (exFileC, exFileC.hashOutcome) ([], exState)).2.file_hashes
          = exState.file_hashes ∧
      ((process_one 0 "root" (exFileC, exFileC.hashOutcome) ([], exState)).2.heap
          exState.counter).map FileInfo.hash = some none ∧
      ((process_one 0 "root" (exFileC, exFileC.hashOutcome) ([], exState)).2.heap
          exState.counter).map FileInfo.is_duplicate = some false ∧
      (∀ st2,
        Evolves (process_one 0 "root" (exFileC, exFileC.hashOutcome) ([], exState)).2 st2 →
        (∀ j ∈ exState.file_hashes.map Prod.snd, j < exState.counter) →
        st2.heap exState.counter
          = (process_one 0 "root" (exFileC, exFileC.hashOutcome) ([], exState)).2.heap
              exState.counter)) :=
  ⟨C3_error_recovery_asymmetry.1 0 "root" [exFileA] exFileD [exFileB] [] exState rfl,
   C3_error_recovery_asymmetry.2 0 "root" exFileC exStatA [] exState rfl rfl⟩

/-- Claim C10: frame property of stored records.  For every record
already created when some span of scanning work starts, the record still
exists afterwards, every field except is_duplicate -- name, path, size,
creation_date, last_modified, extension, hash, type, id, and the
classification flags -- is unchanged, and is_duplicate moves only from
false to true, never back. -/
theorem C10_record_frame (now : Int) (bs : Nat) (l : FSListing) (dp : String)
    (c : List Node) (b : List FileFS) (st : ScanState) (i : Nat) (r : FileInfo)
    (hi : i < st.counter) (hr : st.heap i = some r) :
    ∃ r', (add_nodes now bs dp l c b st).2.heap i = some r' ∧
      r'.name = r.name ∧ r'.path = r.path ∧ r'.size = r.size ∧
      r'.creation_date = r.creation_date ∧ r'.last_modified = r.last_modified ∧
      r'.extension = r.extension ∧ r'.hash = r.hash ∧ r'.type = r.type ∧ r'.id = r.id ∧
      r'.is_old = r.is_old ∧ r'.is_large = r.is_large ∧ r'.is_empty = r.is_empty ∧
      (r.is_duplicate = true → r'.is_duplicate = true) := by
  obtain ⟨r', hr', hs⟩ := (add_nodes_evolves now bs l dp c b st).evolve i r hi hr
  obtain ⟨e1, e2, e3, e4, e5, e6, e7, e8, e9, e10, e11, e12, e13⟩ :=
    sameButDup_fields r r' hs
  exact ⟨r', hr', e1, e2, e3, e4, e5, e6, e7, e8, e9, e10, e11, e12, e13⟩

/-- Witness for C10: the stored original of digest "aaa" survives the
scan of a directory holding a duplicate of it, all fields but the flag
intact. -/
theorem C10_record_frame_witness :
    ∃ r', (add_nodes 0 10 "root" (ofFiles [exFileB]) [] [] exState2).2.heap 1 = some r' ∧
      r'.name = exRecordA.name ∧ r'.path = exRecordA.path ∧ r'.size = exRecordA.size ∧
      r'.creation_date = exRecordA.creation_date ∧
      r'.last_modified = exRecordA.last_modified ∧
      r'.extension = exRecordA.extension ∧ r'.hash = exRecordA.hash ∧
      r'.type = exRecordA.type ∧ r'.id = exRecordA.id ∧
      r'.is_old = exRecordA.is_old ∧ r'.is_large = exRecordA.is_large ∧
      r'.is_empty = exRecordA.is_empty ∧
      (exRecordA.is_duplicate = true → r'.is_duplicate = true) :=
  C10_record_frame 0 10 (ofFiles [exFileB]) "root" [] [] exState2 1 exRecordA (by decide)
    (by decide)

/-- Counterexample to claim C4 as stated: exFileA is successfully read
and hashed (its digest computation yields "aaa"), yet the record the scan
stores for it carries hash = none, not the computed digest. -/
theorem C4_counterexample :
    exFileA.hashOutcome = some "aaa" ∧
    ((get_file_tree 0 "root" (ofFiles [exFileA]) 10).2.heap 1).map FileInfo.hash
        = some none ∧
    ((get_file_tree 0 "root" (ofFiles [exFileA]) 10).2.heap 1).map FileInfo.hash
        ≠ some (some "aaa") := by
  refine ⟨rfl, ?_, ?_⟩
  · decide
  · decide

/-- Claim C4 as amended: the hash field of every record any scan ever
stores is none -- get_file_info initialises it to None and
process_file_batch never writes the computed digest into the record; the
digest only serves as the key of the duplicate index. -/
theorem C4_amended_hash_field_always_absent (now : Int) (root_dir : String) (l : FSListing)
    (bs : Nat) (i : Nat) (r : FileInfo)
    (h : (get_file_tree now root_dir l bs).2.heap i = some r) : r.hash = none := by
  simp only [get_file_tree] at h
  exact add_nodes_hash_none now bs l root_dir [] [] _
    (fun j rj hj => Option.noConfusion hj) i r h

/-- Witness for the amended C4 at a concrete scan. -/
theorem C4_amended_hash_field_always_absent_witness : exRecordA.hash = none :=
  C4_amended_hash_field_always_absent 0 "root" (ofFiles [exFileA]) 10 1 exRecordA
    (by decide)

end FileAnalyzer
